import Mathlib

/-!
Verification of the download orchestration engine of an automated
playlist downloader (`app/downloader.py`).

Python strings are modelled as lists of characters (`Str`); optional
string fields of raw engine records are modelled as `Option Str`, where
`none` stands for an absent key or a `None` value; Python exceptions and
`ValueError` are modelled with `Except`; the filesystem probe and the
external download engine are modelled as an oracle environment `Env`.
-/

/-- Python strings are modelled as lists of characters. -/
abbrev Str := List Char

instance {ε α : Type} [DecidableEq ε] [DecidableEq α] : DecidableEq (Except ε α) := fun a b =>
  match a, b with
  | Except.ok x, Except.ok y =>
    if h : x = y then isTrue (by rw [h]) else isFalse (by intro hc; cases hc; exact h rfl)
  | Except.error x, Except.error y =>
    if h : x = y then isTrue (by rw [h]) else isFalse (by intro hc; cases hc; exact h rfl)
  | Except.ok _, Except.error _ => isFalse (by intro hc; cases hc)
  | Except.error _, Except.ok _ => isFalse (by intro hc; cases hc)

/-- Python's whitespace set for `str.strip()` (space, tab, newline,
carriage return, vertical tab, form feed). -/
def pyIsSpace (c : Char) : Bool :=
  c = ' ' || c = '\t' || c = '\n' || c = '\r' || c = '\x0b' || c = '\x0c'

/-- Python `s.strip(chars)`: remove characters satisfying `p` from both
ends of the string. -/
def pyStripChars (p : Char → Bool) (l : Str) : Str :=
  List.rdropWhile p (l.dropWhile p)

/-- Python `s.strip()` with no argument: strip whitespace from both ends. -/
def pyStrip (l : Str) : Str := pyStripChars pyIsSpace l

/-- Python `s.split(sep)` for a one-character separator: splits at every
occurrence and keeps empty pieces (`"".split(",") == [""]`). -/
def splitOnChar (sep : Char) : Str → List Str
  | [] => [[]]
  | c :: cs =>
    let rest := splitOnChar sep cs
    if c = sep then [] :: rest
    else
      match rest with
      | [] => [[c]]
      | h :: t => (c :: h) :: t

/-- Python `s.split(sep, maxsplit=1)` for a one-character separator:
splits at the first occurrence only. -/
def splitFirst (sep : Char) : Str → List Str
  | [] => [[]]
  | c :: cs =>
    if c = sep then [[], cs]
    else
      match splitFirst sep cs with
      | [] => [[c]]
      | h :: t => (c :: h) :: t

/-- Python `s.isdigit()` on ASCII input: non-empty and all digits. -/
def pyIsDigit (l : Str) : Bool := !l.isEmpty && l.all Char.isDigit

/-- Python `int(s)` on an all-digit string. -/
def listToNat (l : Str) : Nat := l.foldl (fun a c => a * 10 + (c.toNat - 48)) 0

/-- The characters matched by `re.sub(r'[\\/*?:"<>|]', "_", name)` in
`sanitize_filename`. -/
def filenameSpecialChar (c : Char) : Bool :=
  c = '\\' || c = '/' || c = '*' || c = '?' || c = ':' || c = '"' ||
    c = '<' || c = '>' || c = '|'

/-- `sanitize_filename` from `app/downloader.py`: replace unsafe
characters by `_`, strip leading/trailing dots and spaces, and fall back
to `"Untitled"` when the result is empty. -/
def sanitize_filename (name : Str) : Str :=
  let sanitized := name.map (fun c => if filenameSpecialChar c then '_' else c)
  let sanitized := pyStripChars (fun c => c = '.' || c = ' ') sanitized
  if sanitized.isEmpty then "Untitled".data else sanitized

/-- `_format_upload_date` from `app/downloader.py`: `None` or a string
whose length differs from 8 yields `"Unknown"`; otherwise the string is
sliced into `YYYY-MM-DD` form.  The source's `try/except (IndexError,
TypeError)` guard can never fire on a string, since Python slicing does
not raise on strings, so it has no counterpart here. -/
def formatUploadDate : Option Str → Str
  | none => "Unknown".data
  | some raw =>
    if raw.isEmpty || raw.length != 8 then "Unknown".data
    else raw.take 4 ++ "-".data ++ (raw.drop 4).take 2 ++ "-".data ++ (raw.drop 6).take 2

/-- The Python `set[int]` accumulated by `parse_video_range` is modelled
as a duplicate-free list; `setInsert` is `set.add`. -/
def setInsert (x : Nat) (acc : List Nat) : List Nat :=
  if x ∈ acc then acc else acc ++ [x]

/-- `indices.update(range(a, b))`: add every element of the half-open
range `[a, b)` to the set. -/
def setUnionRange (acc : List Nat) (a b : Nat) : List Nat :=
  (List.range' a (b - a)).foldl (fun s x => setInsert x s) acc

/-- One iteration of the `for part in range_str.split(",")` loop of
`parse_video_range`: validate a single comma-separated segment and add
its 0-based indices to the accumulated set, or fail. -/
def processSegment (total : Nat) (acc : List Nat) (part : Str) : Except Str (List Nat) :=
  let part := pyStrip part
  if part.isEmpty then Except.ok acc
  else if part.contains '-' then
    match splitFirst '-' part with
    | [b0, b1] =>
      if pyIsDigit (pyStrip b0) && pyIsDigit (pyStrip b1) then
        let lo := listToNat (pyStrip b0)
        let hi := listToNat (pyStrip b1)
        if lo < 1 || total < hi || hi < lo then
          Except.error ("Range is out of bounds".data)
        else Except.ok (setUnionRange acc (lo - 1) hi)
      else Except.error ("Invalid range segment".data)
    | _ => Except.error ("Invalid range segment".data)
  else
    if pyIsDigit part then
      let num := listToNat part
      if num < 1 || total < num then Except.error ("Video is out of bounds".data)
      else Except.ok (setInsert (num - 1) acc)
    else Except.error ("Invalid number".data)

/-- The segment loop of `parse_video_range`, stopping at the first
failing segment (a raised `ValueError` aborts the Python loop). -/
def parseSegments (total : Nat) : List Str → List Nat → Except Str (List Nat)
  | [], acc => Except.ok acc
  | part :: rest, acc =>
    match processSegment total acc part with
    | Except.error e => Except.error e
    | Except.ok acc2 => parseSegments total rest acc2

/-- `parse_video_range` from `app/downloader.py`: empty (after strip)
selects everything, otherwise the comma-separated segments are parsed,
validated, collected into a set, and returned sorted ascending
(`sorted(indices)` on a set is the ascending enumeration of its
distinct elements, which insertion sort of the duplicate-free
accumulator produces exactly). -/
def parse_video_range (range_str : Str) (total : Nat) : Except Str (List Nat) :=
  let rs := pyStrip range_str
  if rs.isEmpty then Except.ok (List.range total)
  else
    match parseSegments total (splitOnChar ',' rs) [] with
    | Except.error e => Except.error e
    | Except.ok indices => Except.ok (List.insertionSort (· ≤ ·) indices)

/-- Python `a or b` where `a` is an optional string: `None` and the
empty string are falsy and fall through to `b`. -/
def pyOr (a : Option Str) (b : Str) : Str :=
  match a with
  | some s => if s.isEmpty then b else s
  | none => b

/-- A raw engine record (a yt-dlp info dict restricted to the keys the
orchestrator reads).  `none` models an absent key or a `None` value. -/
structure RawEntry where
  title : Option Str := none
  description : Option Str := none
  upload_date : Option Str := none
  url : Option Str := none
  webpage_url : Option Str := none
deriving DecidableEq

/-- Outcome of one `ydl.extract_info(playlist_url, download=True)` call:
it raises, returns `None`, or returns a dict `self` whose optional
`"entries"` key holds a list of possibly-null entries. -/
inductive EngineOutcome where
  | exn (msg : Str)
  | nullResult
  | record (entries : Option (List (Option RawEntry))) (self : RawEntry)
deriving DecidableEq

/-- `entries = result.get("entries") or [result]`: a missing or empty
(falsy) entries list falls back to the wrapper record itself. -/
def effEntries (entries : Option (List (Option RawEntry))) (self : RawEntry) : List (Option RawEntry) :=
  match entries with
  | some l => if l.isEmpty then [some self] else l
  | none => [some self]

/-- The external world seen by `download_playlist`, per 0-based playlist
index: the result of the `_check_video_exists` probe and the outcome of
the single-item engine invocation. -/
structure Env where
  fileExists : Nat → Bool
  engine : Nat → EngineOutcome

/-- Progress events emitted through `on_progress`, restricted to the
fields the orchestrator computes itself (wall-clock `elapsed` and the
on-disk `filesize` are not modelled).  `complete` carries the
`skipped_existing` flag, true exactly on the pre-existing path. -/
inductive Event where
  | start (title : Str) (videoIndex seq completed : Nat)
  | complete (title : Str) (seq completed : Nat) (skippedExisting : Bool)
  | error (title : Str) (msg : Str)
deriving DecidableEq

/-- The `VideoMetadata` TypedDict of `app/downloader.py`. -/
structure VideoMetadata where
  title : Str
  description : Str
  upload_date : Str
  url : Str
deriving DecidableEq

/-- The mutable loop state of `download_playlist`: the metadata and
failed lists, the completed/skipped counters, and the stream of emitted
progress events. -/
structure RunState where
  metadata : List VideoMetadata := []
  failed : List Str := []
  completed : Nat := 0
  skipped : Nat := 0
  events : List Event := []
deriving DecidableEq

/-- `playlist_info["entries"][idx] if idx < len(playlist_info["entries"]) else None`. -/
def entryAt (entries : List (Option RawEntry)) (idx : Nat) : Option RawEntry :=
  if idx < entries.length then entries.getD idx none else none

/-- `(entry.get("title") if entry else None) or f"Video #{idx + 1}"`. -/
def entryTitle (entries : List (Option RawEntry)) (idx : Nat) : Str :=
  pyOr ((entryAt entries idx).bind RawEntry.title)
    ("Video #".data ++ Nat.toDigits 10 (idx + 1))

/-- The url stored on the pre-existing-skip path:
`entry.get("url") or entry.get("webpage_url", "N/A") if entry else "N/A"`
(the conditional binds last, so the `or` chain is evaluated only when
`entry` is truthy). -/
def skipPathUrl (entry : Option RawEntry) : Str :=
  match entry with
  | some e => pyOr e.url (e.webpage_url.getD ("N/A".data))
  | none => "N/A".data

/-- The url stored on the successful-download path:
`downloaded_entry.get("webpage_url") or downloaded_entry.get("url", "N/A")`. -/
def downloadPathUrl (e : RawEntry) : Str :=
  pyOr e.webpage_url (e.url.getD ("N/A".data))

/-- The `VideoMetadata` dict built on the pre-existing-skip path of
`download_playlist`. -/
def skipMeta (entries : List (Option RawEntry)) (idx : Nat) : VideoMetadata :=
  { title := entryTitle entries idx,
    description := "Video already downloaded - skipped".data,
    upload_date := "Unknown".data,
    url := skipPathUrl (entryAt entries idx) }

/-- The `VideoMetadata` dict built from a usable downloaded entry on the
successful-download path of `download_playlist`. -/
def downloadMeta (de : RawEntry) : VideoMetadata :=
  { title := de.title.getD ("Untitled".data),
    description := de.description.getD ("No description available.".data),
    upload_date := formatUploadDate de.upload_date,
    url := downloadPathUrl de }

/-- The body of the `for seq, idx in enumerate(selected_indices, start=1)`
loop of `download_playlist`.  Exceptions are modelled at the engine
invocation, the only fallible call in the `try` block. -/
def processIndex (env : Env) (entries : List (Option RawEntry)) (seq idx : Nat)
    (st : RunState) : RunState :=
  let title := entryTitle entries idx
  if env.fileExists idx then
    { st with
      skipped := st.skipped + 1,
      completed := st.completed + 1,
      metadata := st.metadata ++ [skipMeta entries idx],
      events := st.events ++ [Event.complete title seq (st.completed + 1) true] }
  else
    let st1 := { st with events := st.events ++ [Event.start title (idx + 1) seq st.completed] }
    match env.engine idx with
    | EngineOutcome.nullResult =>
      { st1 with
        failed := st1.failed ++ [title],
        skipped := st1.skipped + 1,
        events := st1.events ++ [Event.error title ("No info returned".data)] }
    | EngineOutcome.exn msg =>
      { st1 with
        failed := st1.failed ++ [title],
        skipped := st1.skipped + 1,
        events := st1.events ++ [Event.error title msg] }
    | EngineOutcome.record ents self =>
      match (effEntries ents self).findSome? id with
      | none =>
        { st1 with
          failed := st1.failed ++ [title],
          skipped := st1.skipped + 1 }
      | some de =>
        { st1 with
          metadata := st1.metadata ++ [downloadMeta de],
          completed := st1.completed + 1,
          events := st1.events ++
            [Event.complete (downloadMeta de).title seq (st1.completed + 1) false] }

/-- The per-video loop of `download_playlist` (`seq` is the 1-based
enumeration counter). -/
def runLoop (env : Env) (entries : List (Option RawEntry)) : Nat → List Nat → RunState → RunState
  | _, [], st => st
  | seq, idx :: rest, st =>
    runLoop env entries (seq + 1) rest (processIndex env entries seq idx st)

/-- `download_playlist` from `app/downloader.py`, restricted to its loop
state (directory creation and path construction are filesystem effects
outside the model): process the selected indices in order, starting from
the empty aggregate. -/
def download_playlist (env : Env) (entries : List (Option RawEntry))
    (selected_indices : List Nat) : RunState :=
  runLoop env entries 1 selected_indices {}

/-- The engine invocation at `idx` fails: it raises, returns `None`, or
yields no non-null entry. -/
def engineFailed (env : Env) (idx : Nat) : Bool :=
  match env.engine idx with
  | EngineOutcome.exn _ => true
  | EngineOutcome.nullResult => true
  | EngineOutcome.record ents self => ((effEntries ents self).findSome? id).isNone

/-- A selected index counts as a failure when no pre-existing file was
found and the engine invocation failed. -/
def isFailure (env : Env) (idx : Nat) : Bool :=
  !env.fileExists idx && engineFailed env idx

/-- Number of selected indices with a pre-existing file. -/
def preCount (env : Env) (sel : List Nat) : Nat :=
  (sel.filter (fun i => env.fileExists i)).length

/-- Number of selected indices whose engine invocation failed. -/
def failCount (env : Env) (sel : List Nat) : Nat :=
  (sel.filter (isFailure env)).length

/-! ### Helper lemmas about the range-parser set accumulator -/

theorem foldl_setInsert_mem {y : Nat} :
    ∀ (l acc : List Nat), y ∈ l.foldl (fun s x => setInsert x s) acc → y ∈ acc ∨ y ∈ l := by
  intro l
  induction l with
  | nil => exact fun acc h => Or.inl h
  | cons x t ih =>
    intro acc h
    rcases ih (setInsert x acc) h with h1 | h1
    · unfold setInsert at h1
      by_cases hx : x ∈ acc
      · rw [if_pos hx] at h1
        exact Or.inl h1
      · rw [if_neg hx] at h1
        rcases List.mem_append.mp h1 with h2 | h2
        · exact Or.inl h2
        · simp only [List.mem_singleton] at h2
          subst h2
          exact Or.inr (List.mem_cons_self _ _)
    · exact Or.inr (List.mem_cons_of_mem _ h1)

theorem nodup_setInsert (x : Nat) (acc : List Nat) (h : acc.Nodup) : (setInsert x acc).Nodup := by
  unfold setInsert
  by_cases hx : x ∈ acc
  · rwa [if_pos hx]
  · rw [if_neg hx]
    refine List.Nodup.append h (List.nodup_singleton x) ?_
    intro a ha hax
    simp only [List.mem_singleton] at hax
    subst hax
    exact hx ha

theorem nodup_foldl_setInsert :
    ∀ (l acc : List Nat), acc.Nodup → (l.foldl (fun s x => setInsert x s) acc).Nodup := by
  intro l
  induction l with
  | nil => exact fun acc h => h
  | cons x t ih => exact fun acc h => ih _ (nodup_setInsert x acc h)

theorem setUnionRange_mem {y : Nat} {acc : List Nat} {a b : Nat}
    (h : y ∈ setUnionRange acc a b) : y ∈ acc ∨ y < b := by
  unfold setUnionRange at h
  rcases foldl_setInsert_mem _ _ h with h1 | h1
  · exact Or.inl h1
  · right
    rcases List.mem_range'.mp h1 with ⟨i, hi, rfl⟩
    omega

theorem processSegment_mem {total : Nat} {acc : List Nat} {part : Str} {acc2 : List Nat}
    (h : processSegment total acc part = Except.ok acc2) :
    ∀ y ∈ acc2, y ∈ acc ∨ y < total := by
  unfold processSegment at h
  dsimp only at h
  split at h
  · cases h
    exact fun y hy => Or.inl hy
  · split at h
    · split at h
      · split at h
        · split at h
          · cases h
          · cases h
            intro y hy
            rcases setUnionRange_mem hy with h1 | h1
            · exact Or.inl h1
            · rename_i hcond
              right
              simp only [Bool.or_eq_true, decide_eq_true_eq, not_or, not_lt] at hcond
              omega
        · cases h
      · cases h
    · split at h
      · split at h
        · cases h
        · cases h
          intro y hy
          unfold setInsert at hy
          rename_i hcond
          simp only [Bool.or_eq_true, decide_eq_true_eq, not_or, not_lt] at hcond
          by_cases hx : listToNat (pyStrip part) - 1 ∈ acc
          · rw [if_pos hx] at hy
            exact Or.inl hy
          · rw [if_neg hx] at hy
            rcases List.mem_append.mp hy with h2 | h2
            · exact Or.inl h2
            · simp only [List.mem_singleton] at h2
              subst h2
              right
              omega
      · cases h

theorem processSegment_nodup {total : Nat} {acc : List Nat} {part : Str} {acc2 : List Nat}
    (h : processSegment total acc part = Except.ok acc2) (hn : acc.Nodup) : acc2.Nodup := by
  unfold processSegment at h
  dsimp only at h
  split at h
  · cases h; exact hn
  · split at h
    · split at h
      · split at h
        · split at h
          · cases h
          · cases h
            exact nodup_foldl_setInsert _ _ hn
        · cases h
      · cases h
    · split at h
      · split at h
        · cases h
        · cases h
          exact nodup_setInsert _ _ hn
      · cases h

theorem parseSegments_mem {total : Nat} :
    ∀ (parts : List Str) (acc acc2 : List Nat),
      parseSegments total parts acc = Except.ok acc2 →
      (∀ y ∈ acc, y < total) → ∀ y ∈ acc2, y < total := by
  intro parts
  induction parts with
  | nil =>
    intro acc acc2 h hacc
    cases h
    exact hacc
  | cons part rest ih =>
    intro acc acc2 h hacc
    unfold parseSegments at h
    cases hps : processSegment total acc part with
    | error e => rw [hps] at h; cases h
    | ok acc1 =>
      rw [hps] at h
      refine ih acc1 acc2 h ?_
      intro y hy
      rcases processSegment_mem hps y hy with h1 | h1
      · exact hacc y h1
      · exact h1

theorem parseSegments_nodup {total : Nat} :
    ∀ (parts : List Str) (acc acc2 : List Nat),
      parseSegments total parts acc = Except.ok acc2 → acc.Nodup → acc2.Nodup := by
  intro parts
  induction parts with
  | nil =>
    intro acc acc2 h hn
    cases h
    exact hn
  | cons part rest ih =>
    intro acc acc2 h hn
    unfold parseSegments at h
    cases hps : processSegment total acc part with
    | error e => rw [hps] at h; cases h
    | ok acc1 =>
      rw [hps] at h
      exact ih acc1 acc2 h (processSegment_nodup hps hn)

theorem sorted_lt_of_sorted_le_nodup {l : List Nat}
    (h1 : List.Sorted (· ≤ ·) l) (h2 : l.Nodup) : List.Sorted (· < ·) l :=
  (List.Pairwise.and h1 h2).imp (fun h => lt_of_le_of_ne h.1 h.2)

/-- C3: for every range string that is non-empty after stripping and
parses without error, and every total, `parse_video_range` returns a
list of indices that is a subset of `[0, total)`, strictly ascending,
and free of duplicates. -/
theorem parse_video_range_sound (range_str : Str) (total : Nat) (l : List Nat)
    (hne : (pyStrip range_str).isEmpty = false)
    (hok : parse_video_range range_str total = Except.ok l) :
    (∀ x ∈ l, x < total) ∧ List.Sorted (· < ·) l ∧ l.Nodup := by
  unfold parse_video_range at hok
  rw [if_neg (by simp [hne])] at hok
  cases hps : parseSegments total (splitOnChar ',' (pyStrip range_str)) [] with
  | error e => rw [hps] at hok; cases hok
  | ok indices =>
    rw [hps] at hok
    cases hok
    have hnd : indices.Nodup :=
      parseSegments_nodup _ _ _ hps List.nodup_nil
    have hmem : ∀ y ∈ indices, y < total :=
      parseSegments_mem _ _ _ hps (by intro y hy; cases hy)
    have hperm : List.Perm (List.insertionSort (· ≤ ·) indices) indices :=
      List.perm_insertionSort _ _
    have hnd2 : (List.insertionSort (· ≤ ·) indices).Nodup := hperm.symm.nodup hnd
    refine ⟨?_, ?_, hnd2⟩
    · intro x hx
      exact hmem x (hperm.mem_iff.mp hx)
    · exact sorted_lt_of_sorted_le_nodup (List.sorted_insertionSort _ _) hnd2

/-- A malformed or out-of-bounds segment in the sense of C8: after
stripping, the segment is a single all-digit value outside `[1, total]`,
a hyphenated pair of all-digit tokens that is inverted or has an
endpoint outside `[1, total]`, or contains a non-numeric token. -/
def segmentBad (total : Nat) (part : Str) : Bool :=
  let p := pyStrip part
  if p.isEmpty then false
  else if p.contains '-' then
    match splitFirst '-' p with
    | [b0, b1] =>
      if pyIsDigit (pyStrip b0) && pyIsDigit (pyStrip b1) then
        decide (listToNat (pyStrip b0) < 1) || decide (total < listToNat (pyStrip b1)) ||
          decide (listToNat (pyStrip b1) < listToNat (pyStrip b0))
      else true
    | _ => true
  else
    !pyIsDigit p || (decide (listToNat p < 1) || decide (total < listToNat p))

theorem processSegment_error_of_bad {total : Nat} {part : Str}
    (hbad : segmentBad total part = true) (acc : List Nat) :
    ∃ e, processSegment total acc part = Except.error e := by
  unfold segmentBad at hbad
  unfold processSegment
  dsimp only at hbad ⊢
  by_cases hemp : (pyStrip part).isEmpty = true
  · rw [if_pos hemp] at hbad
    cases hbad
  · rw [if_neg hemp] at hbad ⊢
    by_cases hdash : (pyStrip part).contains '-' = true
    · rw [if_pos hdash] at hbad ⊢
      rcases hsp : splitFirst '-' (pyStrip part) with _ | ⟨b0, t⟩
      · simp only [hsp] at hbad ⊢
        exact ⟨_, rfl⟩
      · rcases t with _ | ⟨b1, t2⟩
        · simp only [hsp] at hbad ⊢
          exact ⟨_, rfl⟩
        · rcases t2 with _ | ⟨b2, t3⟩
          · simp only [hsp] at hbad ⊢
            by_cases hdig : (pyIsDigit (pyStrip b0) && pyIsDigit (pyStrip b1)) = true
            · rw [if_pos hdig] at hbad ⊢
              rw [if_pos hbad]
              exact ⟨_, rfl⟩
            · rw [if_neg hdig]
              exact ⟨_, rfl⟩
          · simp only [hsp] at hbad ⊢
            exact ⟨_, rfl⟩
    · rw [if_neg hdash] at hbad ⊢
      by_cases hdig2 : pyIsDigit (pyStrip part) = true
      · rw [if_pos hdig2]
        simp only [hdig2, Bool.not_true, Bool.false_or] at hbad
        rw [if_pos hbad]
        exact ⟨_, rfl⟩
      · rw [if_neg hdig2]
        exact ⟨_, rfl⟩

theorem parseSegments_error_of_bad {total : Nat} :
    ∀ (parts : List Str) (acc : List Nat),
      (∃ part ∈ parts, segmentBad total part = true) →
      ∃ e, parseSegments total parts acc = Except.error e := by
  intro parts
  induction parts with
  | nil =>
    intro acc h
    rcases h with ⟨part, hmem, _⟩
    cases hmem
  | cons p rest ih =>
    intro acc h
    unfold parseSegments
    rcases h with ⟨part, hmem, hbad⟩
    rcases List.mem_cons.mp hmem with rfl | hmem2
    · rcases processSegment_error_of_bad hbad acc with ⟨e, he⟩
      rw [he]
      exact ⟨e, rfl⟩
    · cases hps : processSegment total acc p with
      | error e => exact ⟨e, rfl⟩
      | ok acc1 => exact ih acc1 ⟨part, hmem2, hbad⟩

/-- C8: `parse_video_range` fails with an error (the model of a raised
`ValueError`), returning no selection, whenever some comma-separated
segment is a single value outside `[1, total]`, an inverted range, a
range with an endpoint outside `[1, total]`, or contains a non-numeric
token. -/
theorem parse_video_range_rejects_malformed (range_str : Str) (total : Nat)
    (h : ∃ part ∈ splitOnChar ',' (pyStrip range_str), segmentBad total part = true) :
    ∃ e, parse_video_range range_str total = Except.error e := by
  have hne : (pyStrip range_str).isEmpty = false := by
    rcases hemp : (pyStrip range_str).isEmpty with _ | _
    · rfl
    · exfalso
      rw [List.isEmpty_iff] at hemp
      rw [hemp] at h
      rcases h with ⟨part, hmem, hbad⟩
      have : part = ([] : Str) := by
        simpa [splitOnChar] using hmem
      subst this
      simp [segmentBad, pyStrip, pyStripChars] at hbad
  unfold parse_video_range
  rw [if_neg (by simp [hne])]
  rcases parseSegments_error_of_bad _ [] h with ⟨e, he⟩
  rw [he]
  exact ⟨e, rfl⟩

/-- C10: when the range string is non-empty after stripping but every
comma-separated segment is blank after stripping, `parse_video_range`
returns the empty selection, not the full selection and not an error. -/
theorem parse_video_range_all_blank (range_str : Str) (total : Nat)
    (hne : (pyStrip range_str).isEmpty = false)
    (hblank : ∀ part ∈ splitOnChar ',' (pyStrip range_str), (pyStrip part).isEmpty = true) :
    parse_video_range range_str total = Except.ok [] := by
  have hseg : ∀ (parts : List Str) (acc : List Nat),
      (∀ part ∈ parts, (pyStrip part).isEmpty = true) →
      parseSegments total parts acc = Except.ok acc := by
    intro parts
    induction parts with
    | nil => intro acc _; rfl
    | cons p rest ih =>
      intro acc hb
      unfold parseSegments
      have hp : processSegment total acc p = Except.ok acc := by
        unfold processSegment
        dsimp only
        rw [if_pos (hb p (List.mem_cons_self _ _))]
      rw [hp]
      exact ih acc (fun part hm => hb part (List.mem_cons_of_mem _ hm))
  unfold parse_video_range
  rw [if_neg (by simp [hne])]
  rw [hseg _ [] hblank]
  rfl

/-! ### Helper lemmas about Python-style stripping -/

theorem head?_dropWhile_false {p : Char → Bool} :
    ∀ (l : Str) (c : Char), (l.dropWhile p).head? = some c → p c = false := by
  intro l
  induction l with
  | nil => intro c h; cases h
  | cons a t ih =>
    intro c h
    by_cases hp : p a = true
    · rw [List.dropWhile_cons, if_pos hp] at h
      exact ih c h
    · rw [List.dropWhile_cons, if_neg hp] at h
      cases h
      exact Bool.not_eq_true _ ▸ hp

theorem head?_of_isPrefix {l1 l2 : Str} {c : Char} (h : l1 <+: l2) (hc : l1.head? = some c) :
    l2.head? = some c := by
  rcases h with ⟨r, rfl⟩
  cases l1 with
  | nil => cases hc
  | cons a t => cases hc; rfl

theorem pyStripChars_head {p : Char → Bool} {l : Str} {c : Char}
    (h : (pyStripChars p l).head? = some c) : p c = false := by
  unfold pyStripChars at h
  have hpre := List.rdropWhile_prefix p (l.dropWhile p)
  exact head?_dropWhile_false l c (head?_of_isPrefix hpre h)

theorem pyStripChars_getLast {p : Char → Bool} {l : Str} {c : Char}
    (h : (pyStripChars p l).getLast? = some c) : p c = false := by
  unfold pyStripChars at h
  have hne : List.rdropWhile p (l.dropWhile p) ≠ [] := by
    intro hnil
    rw [hnil] at h
    cases h
  have hlast := List.rdropWhile_last_not p (l.dropWhile p) hne
  rw [List.getLast?_eq_getLast _ hne] at h
  cases h
  simpa using hlast

theorem pyStripChars_subset {p : Char → Bool} {l : Str} {c : Char}
    (h : c ∈ pyStripChars p l) : c ∈ l := by
  unfold pyStripChars at h
  have hpre := List.rdropWhile_prefix p (l.dropWhile p)
  have hsuf : l.dropWhile p <:+ l := List.dropWhile_suffix p
  exact hsuf.subset (hpre.subset h)

/-- C9: for every input string, `sanitize_filename` returns a non-empty
string that contains none of the characters replaced by the sanitizer
and neither starts nor ends with a dot or a space. -/
theorem sanitize_filename_safe (name : Str) :
    sanitize_filename name ≠ [] ∧
    (∀ c ∈ sanitize_filename name, filenameSpecialChar c = false) ∧
    (∀ c, (sanitize_filename name).head? = some c → c ≠ '.' ∧ c ≠ ' ') ∧
    (∀ c, (sanitize_filename name).getLast? = some c → c ≠ '.' ∧ c ≠ ' ') := by
  unfold sanitize_filename
  dsimp only
  by_cases hemp :
      (pyStripChars (fun c => c = '.' || c = ' ')
        (name.map (fun c => if filenameSpecialChar c then '_' else c))).isEmpty = true
  · rw [if_pos hemp]
    exact ⟨by decide, by decide, by decide, by decide⟩
  · rw [if_neg hemp]
    refine ⟨?_, ?_, ?_, ?_⟩
    · intro hnil
      rw [hnil] at hemp
      exact hemp rfl
    · intro c hc
      have hm := pyStripChars_subset hc
      rcases List.mem_map.mp hm with ⟨a, _, ha⟩
      by_cases hsp : filenameSpecialChar a = true
      · rw [if_pos hsp] at ha
        rw [← ha]
        decide
      · rw [if_neg hsp] at ha
        rw [← ha]
        exact Bool.not_eq_true _ ▸ hsp
    · intro c hc
      have := pyStripChars_head hc
      simpa [not_or] using this
    · intro c hc
      have := pyStripChars_getLast hc
      simpa [not_or] using this

theorem sanitize_filename_safe_witness :
    ((sanitize_filename ("  my/video: part 1? ".data)).head? = some 'm' ∧
      ('m' ≠ '.' ∧ 'm' ≠ ' ')) ∧
    ((sanitize_filename ("  my/video: part 1? ".data)).getLast? = some '_' ∧
      ('_' ≠ '.' ∧ '_' ≠ ' ')) :=
  ⟨⟨by decide, (sanitize_filename_safe ("  my/video: part 1? ".data)).2.2.1 'm' (by decide)⟩,
    ⟨by decide, (sanitize_filename_safe ("  my/video: part 1? ".data)).2.2.2 '_' (by decide)⟩⟩

/-- C5 counterexample: an 8-character non-numeric upload date is still
reformatted with dashes instead of being mapped to "Unknown"; the claim
that every 8-character string with non-numeric characters yields
"Unknown" is false on the code. -/
theorem formatUploadDate_nonnumeric :
    formatUploadDate (some ("abcdefgh".data)) = "abcd-ef-gh".data ∧
    formatUploadDate (some ("abcdefgh".data)) ≠ "Unknown".data := by decide

/-- C5 amended: `_format_upload_date` returns the dashed form for EVERY
8-character input string, numeric or not (there is no numeric check in
the code), and returns "Unknown" exactly for an absent value or a
string whose length differs from 8. -/
theorem formatUploadDate_spec (raw : Str) :
    (∀ c1 c2 c3 c4 c5 c6 c7 c8 : Char, raw = [c1, c2, c3, c4, c5, c6, c7, c8] →
      formatUploadDate (some raw) = [c1, c2, c3, c4, '-', c5, c6, '-', c7, c8]) ∧
    (raw.length ≠ 8 → formatUploadDate (some raw) = "Unknown".data) ∧
    formatUploadDate none = "Unknown".data := by
  refine ⟨?_, ?_, rfl⟩
  · intro c1 c2 c3 c4 c5 c6 c7 c8 hr
    subst hr
    rfl
  · intro hlen
    have hcond : (raw.isEmpty || raw.length != 8) = true := by
      simp [Bool.or_eq_true, bne_iff_ne, hlen]
    simp only [formatUploadDate, hcond, if_true]

theorem formatUploadDate_spec_witness :
    formatUploadDate (some ("20240315".data)) = "2024-03-15".data :=
  (formatUploadDate_spec ("20240315".data)).1 '2' '0' '2' '4' '0' '3' '1' '5' (by decide)

/-! ### Per-branch equations for the orchestrator loop body -/

theorem processIndex_skip {env : Env} {entries : List (Option RawEntry)} {seq idx : Nat}
    {st : RunState} (h : env.fileExists idx = true) :
    processIndex env entries seq idx st = { st with
      skipped := st.skipped + 1,
      completed := st.completed + 1,
      metadata := st.metadata ++ [skipMeta entries idx],
      events := st.events ++
        [Event.complete (entryTitle entries idx) seq (st.completed + 1) true] } := by
  unfold processIndex
  dsimp only
  rw [if_pos h]

theorem processIndex_null {env : Env} {entries : List (Option RawEntry)} {seq idx : Nat}
    {st : RunState} (hf : env.fileExists idx = false)
    (he : env.engine idx = EngineOutcome.nullResult) :
    processIndex env entries seq idx st = { st with
      failed := st.failed ++ [entryTitle entries idx],
      skipped := st.skipped + 1,
      events := st.events ++
        [Event.start (entryTitle entries idx) (idx + 1) seq st.completed,
          Event.error (entryTitle entries idx) ("No info returned".data)] } := by
  unfold processIndex
  dsimp only
  rw [if_neg (by simp [hf]), he]
  simp

theorem processIndex_exn {env : Env} {entries : List (Option RawEntry)} {seq idx : Nat}
    {st : RunState} {m : Str} (hf : env.fileExists idx = false)
    (he : env.engine idx = EngineOutcome.exn m) :
    processIndex env entries seq idx st = { st with
      failed := st.failed ++ [entryTitle entries idx],
      skipped := st.skipped + 1,
      events := st.events ++
        [Event.start (entryTitle entries idx) (idx + 1) seq st.completed,
          Event.error (entryTitle entries idx) m] } := by
  unfold processIndex
  dsimp only
  rw [if_neg (by simp [hf]), he]
  simp

theorem processIndex_allNull {env : Env} {entries : List (Option RawEntry)} {seq idx : Nat}
    {st : RunState} {ents : Option (List (Option RawEntry))} {self : RawEntry}
    (hf : env.fileExists idx = false)
    (he : env.engine idx = EngineOutcome.record ents self)
    (hde : (effEntries ents self).findSome? id = none) :
    processIndex env entries seq idx st = { st with
      failed := st.failed ++ [entryTitle entries idx],
      skipped := st.skipped + 1,
      events := st.events ++
        [Event.start (entryTitle entries idx) (idx + 1) seq st.completed] } := by
  unfold processIndex
  dsimp only
  rw [if_neg (by simp [hf]), he]
  simp [hde]

theorem processIndex_success {env : Env} {entries : List (Option RawEntry)} {seq idx : Nat}
    {st : RunState} {ents : Option (List (Option RawEntry))} {self de : RawEntry}
    (hf : env.fileExists idx = false)
    (he : env.engine idx = EngineOutcome.record ents self)
    (hde : (effEntries ents self).findSome? id = some de) :
    processIndex env entries seq idx st = { st with
      metadata := st.metadata ++ [downloadMeta de],
      completed := st.completed + 1,
      events := st.events ++
        [Event.start (entryTitle entries idx) (idx + 1) seq st.completed,
          Event.complete (downloadMeta de).title seq (st.completed + 1) false] } := by
  unfold processIndex
  dsimp only
  rw [if_neg (by simp [hf]), he]
  simp [hde]

/-! ### Counting laws (C1) -/

theorem processIndex_counts (env : Env) (entries : List (Option RawEntry)) (seq idx : Nat)
    (st : RunState) :
    (processIndex env entries seq idx st).metadata.length + failCount env [idx] =
      st.metadata.length + 1 ∧
    (processIndex env entries seq idx st).skipped =
      st.skipped + preCount env [idx] + failCount env [idx] ∧
    (processIndex env entries seq idx st).failed.length =
      st.failed.length + failCount env [idx] := by
  by_cases hf : env.fileExists idx = true
  · rw [processIndex_skip hf]
    have h1 : isFailure env idx = false := by simp [isFailure, hf]
    simp [failCount, preCount, List.filter, h1, hf]
  · have hf2 : env.fileExists idx = false := by simpa using hf
    cases he : env.engine idx with
    | nullResult =>
      rw [processIndex_null hf2 he]
      have h1 : isFailure env idx = true := by simp [isFailure, engineFailed, hf2, he]
      simp [failCount, preCount, List.filter, h1, hf2]
    | exn m =>
      rw [processIndex_exn hf2 he]
      have h1 : isFailure env idx = true := by simp [isFailure, engineFailed, hf2, he]
      simp [failCount, preCount, List.filter, h1, hf2]
    | record ents self =>
      cases hde : (effEntries ents self).findSome? id with
      | none =>
        rw [processIndex_allNull hf2 he hde]
        have h1 : isFailure env idx = true := by
          simp [isFailure, engineFailed, hf2, he, hde]
        simp [failCount, preCount, List.filter, h1, hf2]
      | some de =>
        rw [processIndex_success hf2 he hde]
        have h1 : isFailure env idx = false := by
          simp [isFailure, engineFailed, hf2, he, hde]
        simp [failCount, preCount, List.filter, h1, hf2]

theorem failCount_cons (env : Env) (idx : Nat) (rest : List Nat) :
    failCount env (idx :: rest) = failCount env [idx] + failCount env rest := by
  simp only [failCount, List.filter]
  cases isFailure env idx <;> simp [Nat.add_comm]

theorem preCount_cons (env : Env) (idx : Nat) (rest : List Nat) :
    preCount env (idx :: rest) = preCount env [idx] + preCount env rest := by
  simp only [preCount, List.filter]
  cases env.fileExists idx <;> simp [Nat.add_comm]

theorem runLoop_counts (env : Env) (entries : List (Option RawEntry)) :
    ∀ (sel : List Nat) (seq : Nat) (st : RunState),
      (runLoop env entries seq sel st).metadata.length + failCount env sel =
        st.metadata.length + sel.length ∧
      (runLoop env entries seq sel st).skipped =
        st.skipped + preCount env sel + failCount env sel ∧
      (runLoop env entries seq sel st).failed.length =
        st.failed.length + failCount env sel := by
  intro sel
  induction sel with
  | nil =>
    intro seq st
    simp [runLoop, failCount, preCount]
  | cons idx rest ih =>
    intro seq st
    obtain ⟨p1, p2, p3⟩ := processIndex_counts env entries seq idx st
    obtain ⟨h1, h2, h3⟩ := ih (seq + 1) (processIndex env entries seq idx st)
    rw [failCount_cons, preCount_cons]
    simp only [List.length_cons]
    have hstep : runLoop env entries seq (idx :: rest) st =
        runLoop env entries (seq + 1) rest (processIndex env entries seq idx st) := rfl
    rw [hstep]
    refine ⟨by omega, by omega, by omega⟩

/-- C1: for every run of `download_playlist` over a selection, with `S`
the number of selected indices, `F` the number of selected indices whose
engine invocation failed (null result, no usable entry, or an
exception), and `P` the number of selected indices with a pre-existing
file, the result satisfies `len(metadata) = S - F` and
`skipped = P + F`. -/
theorem download_playlist_counts (env : Env) (entries : List (Option RawEntry))
    (sel : List Nat) :
    (download_playlist env entries sel).metadata.length = sel.length - failCount env sel ∧
    (download_playlist env entries sel).skipped = preCount env sel + failCount env sel := by
  obtain ⟨h1, h2, _⟩ := runLoop_counts env entries sel 1 {}
  unfold download_playlist
  constructor
  · simp only [List.length_nil] at h1
    omega
  · simpa using h2

/-- C2: for a selected index with a pre-existing file, the loop body
appends a placeholder metadata record (fixed already-downloaded
description, upload date "Unknown"), increments both the completed and
the skipped counter, emits a `complete` event tagged
`skippedExisting = true`, never consults the engine (the result is the
same for every engine), and the loop continues with the next index. -/
theorem download_skip_existing (env : Env) (entries : List (Option RawEntry))
    (seq idx : Nat) (st : RunState) (rest : List Nat)
    (h : env.fileExists idx = true) :
    processIndex env entries seq idx st = { st with
      skipped := st.skipped + 1,
      completed := st.completed + 1,
      metadata := st.metadata ++
        [{ title := entryTitle entries idx,
           description := "Video already downloaded - skipped".data,
           upload_date := "Unknown".data,
           url := skipPathUrl (entryAt entries idx) }],
      events := st.events ++
        [Event.complete (entryTitle entries idx) seq (st.completed + 1) true] } ∧
    (∀ g : Nat → EngineOutcome,
      processIndex { env with engine := g } entries seq idx st =
        processIndex env entries seq idx st) ∧
    runLoop env entries seq (idx :: rest) st =
      runLoop env entries (seq + 1) rest (processIndex env entries seq idx st) := by
  refine ⟨?_, ?_, rfl⟩
  · rw [processIndex_skip h]
    rfl
  · intro g
    rw [@processIndex_skip { env with engine := g } entries seq idx st h,
      processIndex_skip h]

def envC2w : Env :=
  { fileExists := fun _ => true, engine := fun _ => EngineOutcome.nullResult }

def entriesC2w : List (Option RawEntry) :=
  [some { title := some ("A".data), url := some ("u".data) }]

theorem download_skip_existing_witness :
    envC2w.fileExists 0 = true ∧
    processIndex envC2w entriesC2w 1 0 {} =
      { metadata := [{ title := "A".data,
                       description := "Video already downloaded - skipped".data,
                       upload_date := "Unknown".data,
                       url := "u".data }],
        failed := [], completed := 1, skipped := 1,
        events := [Event.complete ("A".data) 1 1 true] } :=
  ⟨rfl, (download_skip_existing envC2w entriesC2w 1 0 {} [] rfl).1⟩

/-- Recognizer for `error` progress events. -/
def isErrorEvent : Event → Bool
  | Event.error _ _ => true
  | _ => false

def envC4 : Env :=
  { fileExists := fun _ => false,
    engine := fun _ => EngineOutcome.record (some [none]) {} }

/-- C4 counterexample: when the engine returns a wrapper whose entries
are all null, the failure is recorded (failed title, skipped counter)
but NO error event is emitted — the event stream holds only the start
event — contradicting the claim that an error event is emitted for
every empty/unusable engine result. -/
theorem no_error_event_on_unusable_result :
    (download_playlist envC4 [] [0]).failed = ["Video #1".data] ∧
    (download_playlist envC4 [] [0]).skipped = 1 ∧
    (download_playlist envC4 [] [0]).events = [Event.start ("Video #1".data) 1 1 0] ∧
    (download_playlist envC4 [] [0]).events.all (fun e => !isErrorEvent e) = true := by
  decide

/-- C4 amended: for a selected index with no pre-existing file, a null
engine result appends the expected title to the failed list, increments
the skipped counter and emits an error event; an engine result with no
non-null entry appends the title and increments the skipped counter but
emits NO error event (only the start event). Either way the run
continues with the next index. -/
theorem engine_failure_recorded (env : Env) (entries : List (Option RawEntry))
    (seq idx : Nat) (st : RunState)
    (hf : env.fileExists idx = false) :
    (env.engine idx = EngineOutcome.nullResult →
      processIndex env entries seq idx st = { st with
        failed := st.failed ++ [entryTitle entries idx],
        skipped := st.skipped + 1,
        events := st.events ++
          [Event.start (entryTitle entries idx) (idx + 1) seq st.completed,
            Event.error (entryTitle entries idx) ("No info returned".data)] }) ∧
    (∀ ents self, env.engine idx = EngineOutcome.record ents self →
      (effEntries ents self).findSome? id = none →
      processIndex env entries seq idx st = { st with
        failed := st.failed ++ [entryTitle entries idx],
        skipped := st.skipped + 1,
        events := st.events ++
          [Event.start (entryTitle entries idx) (idx + 1) seq st.completed] }) := by
  refine ⟨?_, ?_⟩
  · intro he
    exact processIndex_null hf he
  · intro ents self he hde
    exact processIndex_allNull hf he hde

theorem engine_failure_recorded_witness :
    envC4.fileExists 0 = false ∧
    processIndex envC4 [] 1 0 {} =
      { metadata := [], failed := ["Video #1".data], completed := 0, skipped := 1,
        events := [Event.start ("Video #1".data) 1 1 0] } :=
  ⟨rfl, (engine_failure_recorded envC4 [] 1 0 {} rfl).2 (some [none]) {} rfl rfl⟩

def entryC6 : RawEntry :=
  { title := some ("T".data), url := some ("rawurl".data),
    webpage_url := some ("webpage".data) }

def envC6 : Env :=
  { fileExists := fun _ => true, engine := fun _ => EngineOutcome.nullResult }

/-- C6 counterexample: on the pre-existing-skip path the raw `url` key
wins over the webpage URL — the reverse of the claimed order: the
entry's webpage URL is present, yet the stored url is the raw url. -/
theorem skip_url_order_counterexample :
    entryC6.webpage_url = some ("webpage".data) ∧
    (download_playlist envC6 [some entryC6] [0]).metadata.map VideoMetadata.url =
      ["rawurl".data] ∧
    ("rawurl".data : Str) ≠ "webpage".data := by
  decide

/-- Python falsiness for an optional string: absent or empty. -/
def pyFalsy (a : Option Str) : Prop := a = none ∨ a = some []

/-- C6 amended: the url of a metadata record produced on the
successful-download path falls back webpage URL → raw url → "N/A" as
claimed, but on the pre-existing-skip path the order of the first two
steps is reversed: raw url → webpage URL → "N/A". -/
theorem metadata_url_fallback (e : RawEntry) :
    (downloadMeta e).url = downloadPathUrl e ∧
    (∀ (entries : List (Option RawEntry)) (idx : Nat),
      (skipMeta entries idx).url = skipPathUrl (entryAt entries idx)) ∧
    ((∀ w, e.webpage_url = some w → w ≠ [] → downloadPathUrl e = w) ∧
     (pyFalsy e.webpage_url → ∀ u, e.url = some u → downloadPathUrl e = u) ∧
     (pyFalsy e.webpage_url → e.url = none → downloadPathUrl e = "N/A".data)) ∧
    ((∀ u, e.url = some u → u ≠ [] → skipPathUrl (some e) = u) ∧
     (pyFalsy e.url → ∀ w, e.webpage_url = some w → skipPathUrl (some e) = w) ∧
     (pyFalsy e.url → e.webpage_url = none → skipPathUrl (some e) = "N/A".data) ∧
     skipPathUrl none = "N/A".data) := by
  refine ⟨rfl, fun entries idx => rfl, ⟨?_, ?_, ?_⟩, ⟨?_, ?_, ?_, rfl⟩⟩
  · intro w hw hne
    simp [downloadPathUrl, pyOr, hw, List.isEmpty_iff, hne]
  · rintro (hw | hw) u hu <;> simp [downloadPathUrl, pyOr, hw, hu]
  · rintro (hw | hw) hu <;> simp [downloadPathUrl, pyOr, hw, hu]
  · intro u hu hne
    simp [skipPathUrl, pyOr, hu, List.isEmpty_iff, hne]
  · rintro (hu | hu) w hw <;> simp [skipPathUrl, pyOr, hu, hw]
  · rintro (hu | hu) hw <;> simp [skipPathUrl, pyOr, hu, hw]

theorem metadata_url_fallback_witness :
    entryC6.url = some ("rawurl".data) ∧
    skipPathUrl (some entryC6) = "rawurl".data :=
  ⟨rfl, (metadata_url_fallback entryC6).2.2.2.1 ("rawurl".data) rfl (by decide)⟩

/-! ### Structural lemmas for the event stream (C7) -/

theorem runLoop_append (env : Env) (entries : List (Option RawEntry)) :
    ∀ (l1 l2 : List Nat) (seq : Nat) (st : RunState),
      runLoop env entries seq (l1 ++ l2) st =
        runLoop env entries (seq + l1.length) l2 (runLoop env entries seq l1 st) := by
  intro l1
  induction l1 with
  | nil =>
    intro l2 seq st
    simp [runLoop]
  | cons a t ih =>
    intro l2 seq st
    have h1 : runLoop env entries seq ((a :: t) ++ l2) st =
        runLoop env entries (seq + 1) (t ++ l2) (processIndex env entries seq a st) := rfl
    have h2 : runLoop env entries seq (a :: t) st =
        runLoop env entries (seq + 1) t (processIndex env entries seq a st) := rfl
    rw [h1, h2, ih]
    congr 1
    simp [List.length_cons]
    omega

theorem processIndex_events_mono (env : Env) (entries : List (Option RawEntry))
    (seq idx : Nat) (st : RunState) :
    ∃ tl, (processIndex env entries seq idx st).events = st.events ++ tl := by
  by_cases hf : env.fileExists idx = true
  · rw [processIndex_skip hf]
    exact ⟨_, rfl⟩
  · have hf2 : env.fileExists idx = false := by simpa using hf
    cases he : env.engine idx with
    | nullResult => rw [processIndex_null hf2 he]; exact ⟨_, rfl⟩
    | exn m => rw [processIndex_exn hf2 he]; exact ⟨_, rfl⟩
    | record ents self =>
      cases hde : (effEntries ents self).findSome? id with
      | none => rw [processIndex_allNull hf2 he hde]; exact ⟨_, rfl⟩
      | some de => rw [processIndex_success hf2 he hde]; exact ⟨_, rfl⟩

theorem processIndex_failed_mono (env : Env) (entries : List (Option RawEntry))
    (seq idx : Nat) (st : RunState) :
    ∃ tl, (processIndex env entries seq idx st).failed = st.failed ++ tl := by
  by_cases hf : env.fileExists idx = true
  · rw [processIndex_skip hf]
    exact ⟨[], by simp⟩
  · have hf2 : env.fileExists idx = false := by simpa using hf
    cases he : env.engine idx with
    | nullResult => rw [processIndex_null hf2 he]; exact ⟨_, rfl⟩
    | exn m => rw [processIndex_exn hf2 he]; exact ⟨_, rfl⟩
    | record ents self =>
      cases hde : (effEntries ents self).findSome? id with
      | none => rw [processIndex_allNull hf2 he hde]; exact ⟨_, rfl⟩
      | some de => rw [processIndex_success hf2 he hde]; exact ⟨[], by simp⟩

theorem runLoop_events_mono (env : Env) (entries : List (Option RawEntry)) :
    ∀ (sel : List Nat) (seq : Nat) (st : RunState),
      ∃ tl, (runLoop env entries seq sel st).events = st.events ++ tl := by
  intro sel
  induction sel with
  | nil => exact fun seq st => ⟨[], by simp [runLoop]⟩
  | cons idx rest ih =>
    intro seq st
    obtain ⟨t1, h1⟩ := processIndex_events_mono env entries seq idx st
    obtain ⟨t2, h2⟩ := ih (seq + 1) (processIndex env entries seq idx st)
    exact ⟨t1 ++ t2, by rw [show runLoop env entries seq (idx :: rest) st =
      runLoop env entries (seq + 1) rest (processIndex env entries seq idx st) from rfl,
      h2, h1, List.append_assoc]⟩

theorem runLoop_failed_mono (env : Env) (entries : List (Option RawEntry)) :
    ∀ (sel : List Nat) (seq : Nat) (st : RunState),
      ∃ tl, (runLoop env entries seq sel st).failed = st.failed ++ tl := by
  intro sel
  induction sel with
  | nil => exact fun seq st => ⟨[], by simp [runLoop]⟩
  | cons idx rest ih =>
    intro seq st
    obtain ⟨t1, h1⟩ := processIndex_failed_mono env entries seq idx st
    obtain ⟨t2, h2⟩ := ih (seq + 1) (processIndex env entries seq idx st)
    exact ⟨t1 ++ t2, by rw [show runLoop env entries seq (idx :: rest) st =
      runLoop env entries (seq + 1) rest (processIndex env entries seq idx st) from rfl,
      h2, h1, List.append_assoc]⟩

theorem processIndex_start_event (env : Env) (entries : List (Option RawEntry))
    (seq idx : Nat) (st : RunState) (hf : env.fileExists idx = false) :
    ∃ tl, (processIndex env entries seq idx st).events =
      st.events ++ Event.start (entryTitle entries idx) (idx + 1) seq st.completed :: tl := by
  cases he : env.engine idx with
  | nullResult => rw [processIndex_null hf he]; exact ⟨_, rfl⟩
  | exn m => rw [processIndex_exn hf he]; exact ⟨_, rfl⟩
  | record ents self =>
    cases hde : (effEntries ents self).findSome? id with
    | none => rw [processIndex_allNull hf he hde]; exact ⟨_, rfl⟩
    | some de => rw [processIndex_success hf he hde]; exact ⟨_, rfl⟩

/-- C7: a per-video engine failure (an exception or a null result) at a
selected index is caught: the expected title is recorded in the failed
list, and the run still processes every later selected index — the
start event of any later index on the download path appears in the
event stream strictly after the error event of the failing index. -/
theorem failure_does_not_abort (env : Env) (entries : List (Option RawEntry))
    (pre post1 post2 : List Nat) (i j : Nat)
    (hfi : env.fileExists i = false)
    (heng : env.engine i = EngineOutcome.nullResult ∨ ∃ m, env.engine i = EngineOutcome.exn m)
    (hfj : env.fileExists j = false) :
    entryTitle entries i ∈
      (download_playlist env entries (pre ++ i :: (post1 ++ j :: post2))).failed ∧
    ∃ m sq c l1 l2 l3,
      (download_playlist env entries (pre ++ i :: (post1 ++ j :: post2))).events =
        l1 ++ Event.error (entryTitle entries i) m ::
          (l2 ++ Event.start (entryTitle entries j) (j + 1) sq c :: l3) := by
  unfold download_playlist
  rw [runLoop_append]
  set st1 := runLoop env entries 1 pre ({} : RunState) with hst1
  set seq2 := 1 + pre.length with hseq2
  have hstep1 : runLoop env entries seq2 (i :: (post1 ++ j :: post2)) st1 =
      runLoop env entries (seq2 + 1) (post1 ++ j :: post2)
        (processIndex env entries seq2 i st1) := rfl
  rw [hstep1]
  obtain ⟨m, hpi⟩ : ∃ m, processIndex env entries seq2 i st1 = { st1 with
      failed := st1.failed ++ [entryTitle entries i],
      skipped := st1.skipped + 1,
      events := st1.events ++
        [Event.start (entryTitle entries i) (i + 1) seq2 st1.completed,
          Event.error (entryTitle entries i) m] } := by
    rcases heng with he | ⟨m, he⟩
    · exact ⟨_, processIndex_null hfi he⟩
    · exact ⟨m, processIndex_exn hfi he⟩
  rw [hpi, runLoop_append]
  set st2 : RunState := { st1 with
      failed := st1.failed ++ [entryTitle entries i],
      skipped := st1.skipped + 1,
      events := st1.events ++
        [Event.start (entryTitle entries i) (i + 1) seq2 st1.completed,
          Event.error (entryTitle entries i) m] } with hst2
  set st3 := runLoop env entries (seq2 + 1) post1 st2 with hst3
  set seqj := seq2 + 1 + post1.length with hseqj
  have hstepj : runLoop env entries seqj (j :: post2) st3 =
      runLoop env entries (seqj + 1) post2 (processIndex env entries seqj j st3) := rfl
  rw [hstepj]
  obtain ⟨t3, hev3⟩ := runLoop_events_mono env entries post1 (seq2 + 1) st2
  obtain ⟨f3, hfl3⟩ := runLoop_failed_mono env entries post1 (seq2 + 1) st2
  obtain ⟨tj, hevj⟩ := processIndex_start_event env entries seqj j st3 hfj
  obtain ⟨fj, hflj⟩ := processIndex_failed_mono env entries seqj j st3
  obtain ⟨t4, hev4⟩ := runLoop_events_mono env entries post2 (seqj + 1)
    (processIndex env entries seqj j st3)
  obtain ⟨f4, hfl4⟩ := runLoop_failed_mono env entries post2 (seqj + 1)
    (processIndex env entries seqj j st3)
  constructor
  · rw [hfl4, hflj, hst3, hfl3, hst2]
    simp
  · refine ⟨m, seqj, st3.completed,
      st1.events ++ [Event.start (entryTitle entries i) (i + 1) seq2 st1.completed],
      t3, tj ++ t4, ?_⟩
    rw [hev4, hevj, hst3, hev3, hst2]
    simp [List.append_assoc]

def envC7w : Env :=
  { fileExists := fun _ => false, engine := fun _ => EngineOutcome.nullResult }

theorem failure_does_not_abort_witness :
    (envC7w.fileExists 0 = false ∧ envC7w.engine 0 = EngineOutcome.nullResult ∧
      envC7w.fileExists 1 = false) ∧
    entryTitle [] 0 ∈ (download_playlist envC7w [] ([] ++ 0 :: ([] ++ 1 :: []))).failed :=
  ⟨⟨rfl, rfl, rfl⟩,
    (failure_does_not_abort envC7w [] [] [] [] 0 1 rfl (Or.inl rfl) rfl).1⟩

theorem parse_video_range_sound_witness :
    ((pyStrip ("1-3,7,10-12".data)).isEmpty = false ∧
      parse_video_range ("1-3,7,10-12".data) 12 = Except.ok [0, 1, 2, 6, 9, 10, 11]) ∧
    ((∀ x ∈ ([0, 1, 2, 6, 9, 10, 11] : List Nat), x < 12) ∧
      List.Sorted (· < ·) ([0, 1, 2, 6, 9, 10, 11] : List Nat) ∧
      ([0, 1, 2, 6, 9, 10, 11] : List Nat).Nodup) :=
  ⟨⟨by decide, by decide⟩,
    parse_video_range_sound ("1-3,7,10-12".data) 12 [0, 1, 2, 6, 9, 10, 11]
      (by decide) (by decide)⟩

theorem parse_video_range_rejects_malformed_witness :
    (∃ part ∈ splitOnChar ',' (pyStrip ("3-1".data)), segmentBad 10 part = true) ∧
    ∃ e, parse_video_range ("3-1".data) 10 = Except.error e :=
  ⟨⟨"3-1".data, by decide, by decide⟩,
    parse_video_range_rejects_malformed ("3-1".data) 10 ⟨"3-1".data, by decide, by decide⟩⟩

theorem parse_video_range_all_blank_witness :
    ((pyStrip (", ,".data)).isEmpty = false ∧
      (∀ part ∈ splitOnChar ',' (pyStrip (", ,".data)), (pyStrip part).isEmpty = true)) ∧
    parse_video_range (", ,".data) 5 = Except.ok [] :=
  ⟨⟨by decide, by decide⟩, parse_video_range_all_blank (", ,".data) 5 (by decide) (by decide)⟩
